import Mathlib

/-!
# usbtop-ebpf: the USB completion probe of `perf.c`

A shallow embedding of `src/perf.c`: the map key `struct key_t`, the hash map
`stats` declared by `BPF_HASH(stats, struct key_t, u64)`, and the probe
`kprobe__usb_hcd_giveback_urb`, followed by theorems about them.

Machine integers are natural numbers (or `Int` where the source value is
signed) and every store into a fixed-width field is written with an explicit
reduction modulo `2 ^ width`.
-/

namespace UsbTop

/-! ## Constants of `linux/usb/ch9.h` -/

/-- Modelled from the spec: the constant `USB_ENDPOINT_XFERTYPE_MASK` of
`linux/usb/ch9.h`, which is not part of the repository. The spec calls it the
"2-bit field per the standard USB endpoint-attribute encoding", that is `0x03`. -/
def USB_ENDPOINT_XFERTYPE_MASK : Nat := 0x03

/-- Modelled from the spec: the constant `USB_DIR_IN` of `linux/usb/ch9.h`,
which is not part of the repository. The spec calls it the direction bit, "the
same bit position used in endpoint addresses", that is `0x80`. -/
def USB_DIR_IN : Nat := 0x80

/-- Transfer type `Control` of the 2-bit endpoint-attribute encoding. -/
def USB_ENDPOINT_XFER_CONTROL : Nat := 0

/-- Transfer type `Isochronous` of the 2-bit endpoint-attribute encoding. -/
def USB_ENDPOINT_XFER_ISOC : Nat := 1

/-- Transfer type `Bulk` of the 2-bit endpoint-attribute encoding. -/
def USB_ENDPOINT_XFER_BULK : Nat := 2

/-- Transfer type `Interrupt` of the 2-bit endpoint-attribute encoding. -/
def USB_ENDPOINT_XFER_INT : Nat := 3

/-! ## The map key (`perf.c`, lines 25-37) -/

/-- The `struct key_t` of `perf.c`: `u32 busnum`, `u32 devnum`, `u16 vendor`,
`u16 product`, `u8 endpoint`, `u8 type` and the two bytes `u8 pad[2]`. -/
structure key_t where
  busnum : Nat
  devnum : Nat
  vendor : Nat
  product : Nat
  endpoint : Nat
  type : Nat
  pad : List Nat
  deriving DecidableEq, Repr

/-- The initialiser `struct key_t key = { 0 }` (line 49): every member is zero,
the two bytes of `pad` included. -/
def key_t.zero : key_t :=
  { busnum := 0, devnum := 0, vendor := 0, product := 0, endpoint := 0, type := 0,
    pad := [0, 0] }

/-! ## The kernel structures the probe reads

Only the members that `perf.c` dereferences are kept. Their declarations live
in the kernel headers, outside the repository; the widths are those the spec
gives for the fields of a completed-transfer event. -/

/-- The part of `struct usb_device_descriptor` read by the probe. -/
structure usb_device_descriptor where
  idVendor : Nat
  idProduct : Nat
  deriving DecidableEq, Repr

/-- The part of `struct usb_bus` read by the probe. -/
structure usb_bus where
  busnum : Nat
  deriving DecidableEq, Repr

/-- The part of `struct usb_device` read by the probe. -/
structure usb_device where
  bus : usb_bus
  devnum : Nat
  descriptor : usb_device_descriptor
  deriving DecidableEq, Repr

/-- The part of `struct usb_endpoint_descriptor` read by the probe. -/
structure usb_endpoint_descriptor where
  bEndpointAddress : Nat
  bmAttributes : Nat
  deriving DecidableEq, Repr

/-- The part of `struct usb_host_endpoint` read by the probe. -/
structure usb_host_endpoint where
  desc : usb_endpoint_descriptor
  deriving DecidableEq, Repr

/-- The part of `struct urb` read by the probe. `actual_length` is the byte
count of the transfer, an unsigned 32-bit member (`u32 actual_length` in the
kernel header `linux/usb.h`; the spec calls the count "semantically
unsigned"), so the comparison `urb->actual_length > 0` of line 64 is a
comparison of unsigned values. -/
structure urb where
  dev : usb_device
  ep : usb_host_endpoint
  pipe : Nat
  actual_length : Nat
  deriving DecidableEq, Repr

/-- Range of the members of a completed transfer: 32-bit bus and device
numbers, 16-bit vendor and product identifiers, 8-bit endpoint address and
attribute byte, a 32-bit pipe and a 32-bit byte count. -/
def urb.WF (u : urb) : Prop :=
  u.dev.bus.busnum < 2 ^ 32 ∧ u.dev.devnum < 2 ^ 32 ∧
  u.dev.descriptor.idVendor < 2 ^ 16 ∧ u.dev.descriptor.idProduct < 2 ^ 16 ∧
  u.ep.desc.bEndpointAddress < 2 ^ 8 ∧ u.ep.desc.bmAttributes < 2 ^ 8 ∧
  u.pipe < 2 ^ 32 ∧ u.actual_length < 2 ^ 32

instance (u : urb) : Decidable u.WF := by
  unfold urb.WF
  infer_instance

/-- Modelled from the spec: the invariant of the default control endpoint that
the kernel, which is outside the repository, guarantees for the transfers it
hands to the probe. The spec states it as "for the default control endpoint
(endpoint number 0, transfer type Control), the device-descriptor-reported
endpoint address is always 0", and the comment on line 60 of `perf.c` as "For
EP0, bEndpointAddress is always 0". -/
def urb.ep0_invariant (u : urb) : Prop :=
  u.ep.desc.bmAttributes &&& USB_ENDPOINT_XFERTYPE_MASK = USB_ENDPOINT_XFER_CONTROL →
  u.ep.desc.bEndpointAddress &&& 0x0F = 0 →
  u.ep.desc.bEndpointAddress = 0

instance (u : urb) : Decidable u.ep0_invariant := by
  unfold urb.ep0_invariant
  infer_instance

/-! ## The hash map `stats` (`perf.c`, line 40) -/

/-- The contents of the map declared by `BPF_HASH(stats, struct key_t, u64)`:
a finite association of keys to 64-bit leaves, searched from the front. -/
abbrev Table := List (key_t × Nat)

/-- The map with no entry. -/
def Table.empty : Table := []

/-- Every leaf of the table fits 64 bits. -/
def Table.WF (t : Table) : Prop := ∀ e ∈ t, e.2 < 2 ^ 64

instance (t : Table) : Decidable t.WF := by
  unfold Table.WF
  infer_instance

/-- Look a key up: the leaf of the first entry with that key, if any. -/
def Table.lookup : Table → key_t → Option Nat
  | [], _ => none
  | (k1, v1) :: rest, k => if k1 = k then some v1 else Table.lookup rest k

/-- Store a leaf under a key: overwrite the entry of the key when there is one,
add an entry otherwise. -/
def Table.store : Table → key_t → Nat → Table
  | [], k, v => [(k, v)]
  | (k1, v1) :: rest, k, v =>
    if k1 = k then (k, v) :: rest else (k1, v1) :: Table.store rest k v

/-- Modelled from the spec: the method `increment` that the `BPF_HASH` macro of
the BPF compiler collection gives the map `stats`; the macro is not part of the
repository. The spec says it "adds `amount` (unsigned, >0) to the counter for
`key`, creating the entry with value 0 before adding if not present"; the
counter is the `u64` leaf of line 40, so the addition is modulo `2 ^ 64`. -/
def Table.increment (t : Table) (key : key_t) (amount : Nat) : Table :=
  match t.lookup key with
  | some leaf => t.store key ((leaf + amount) % 2 ^ 64)
  | none => t.store key ((0 + amount) % 2 ^ 64)

/-! ## The probe (`perf.c`, lines 43-70) -/

/-- Lines 49-62 of `kprobe__usb_hcd_giveback_urb`: the key the probe builds
from the completed transfer. -/
def giveback_key (u : urb) : key_t :=
  let key : key_t := key_t.zero
  let dev := u.dev
  let key := { key with busnum := dev.bus.busnum % 2 ^ 32 }
  let key := { key with devnum := dev.devnum % 2 ^ 32 }
  let key := { key with vendor := dev.descriptor.idVendor % 2 ^ 16 }
  let key := { key with product := dev.descriptor.idProduct % 2 ^ 16 }
  let key := { key with endpoint := u.ep.desc.bEndpointAddress % 2 ^ 8 }
  let key := { key with
    type := (u.ep.desc.bmAttributes &&& USB_ENDPOINT_XFERTYPE_MASK) % 2 ^ 8 }
  if key.type = 0 ∧ key.endpoint = 0 then
    { key with endpoint := (key.endpoint ||| (u.pipe &&& USB_DIR_IN)) % 2 ^ 8 }
  else
    key

/-- Line 65, `u64 len = urb->actual_length`: the byte count as a 64-bit
unsigned integer. -/
def giveback_len (u : urb) : Nat :=
  u.actual_length % 2 ^ 64

/-- The probe `kprobe__usb_hcd_giveback_urb` of `perf.c`. The map `stats` is
passed in and returned with the return value of the probe; `ctx`, `hcd` and
`status` are the three arguments the body never reads. -/
def kprobe__usb_hcd_giveback_urb (stats : Table) (ctx : Nat) (hcd : Nat) (u : urb)
    (status : Int) : Table × Int :=
  let _ := ctx
  let _ := hcd
  let _ := status
  let key := giveback_key u
  let stats :=
    if u.actual_length > 0 then
      let len := giveback_len u
      stats.increment key len
    else
      stats
  (stats, 0)

/-- Run the probe on the transfers of a list, one after another. -/
def run_probe (stats : Table) : List urb → Table
  | [] => stats
  | u :: rest => run_probe (kprobe__usb_hcd_giveback_urb stats 0 0 u 0).1 rest

/-- The exact sum of the byte counts of the transfers of a list that have a
positive byte count and whose key is `k`. -/
def bytes_for (k : key_t) : List urb → Nat
  | [] => 0
  | u :: rest =>
    (if u.actual_length > 0 ∧ giveback_key u = k then u.actual_length else 0)
      + bytes_for k rest

/-- A bulk IN transfer of 64 bytes on endpoint `0x81` of device 5 on bus 1. -/
def bulk_in_64 : urb :=
  { dev := { bus := { busnum := 1 }, devnum := 5,
             descriptor := { idVendor := 0x1234, idProduct := 0x5678 } },
    ep := { desc := { bEndpointAddress := 0x81, bmAttributes := 0x02 } },
    pipe := 0xC0008580, actual_length := 64 }

/-- The key of `bulk_in_64`. -/
def bulk_in_key : key_t :=
  { busnum := 1, devnum := 5, vendor := 0x1234, product := 0x5678, endpoint := 0x81,
    type := USB_ENDPOINT_XFER_BULK, pad := [0, 0] }

/-- A table whose only counter, under `bulk_in_key`, is the largest 64-bit
value. -/
def near_top_table : Table := [(bulk_in_key, 2 ^ 64 - 1)]

/-- The transfer `bulk_in_64` completing with no byte transferred. -/
def bulk_in_empty : urb := { bulk_in_64 with actual_length := 0 }

/-- A control IN transfer of 8 bytes on endpoint 0 of device 5 on bus 1. -/
def ctrl_in_8 : urb :=
  { dev := { bus := { busnum := 1 }, devnum := 5,
             descriptor := { idVendor := 0x1234, idProduct := 0x5678 } },
    ep := { desc := { bEndpointAddress := 0x00, bmAttributes := 0x00 } },
    pipe := 0x80000580, actual_length := 8 }

/-- The control OUT transfer that differs from `ctrl_in_8` in the direction bit
of the pipe only. -/
def ctrl_out_8 : urb := { ctrl_in_8 with pipe := 0x80000500 }

/-- The key under which `ctrl_in_8` is counted. -/
def ctrl_in_key : key_t :=
  { busnum := 1, devnum := 5, vendor := 0x1234, product := 0x5678, endpoint := 0x80,
    type := USB_ENDPOINT_XFER_CONTROL, pad := [0, 0] }

/-- An interrupt IN transfer of 8 bytes on endpoint `0x82`, with the upper bits
of the attribute byte set. -/
def intr_in_8 : urb :=
  { dev := { bus := { busnum := 2 }, devnum := 3,
             descriptor := { idVendor := 0x046D, idProduct := 0xC52B } },
    ep := { desc := { bEndpointAddress := 0x82, bmAttributes := 0x13 } },
    pipe := 0x40010380, actual_length := 8 }

/-- The transfer `bulk_in_64` with a byte count of `2 ^ 30`. -/
def bulk_in_big : urb := { bulk_in_64 with actual_length := 2 ^ 30 }

/-- A list of `2 ^ 34` transfers of `2 ^ 30` bytes each, all with the key
`bulk_in_key`: `2 ^ 64` bytes in total. -/
def long_run : List urb := List.replicate (2 ^ 34) bulk_in_big

/-- A short list of transfers: two bulk transfers of 64 bytes, a control
transfer and an empty completion. -/
def short_run : List urb := [bulk_in_64, ctrl_in_8, bulk_in_empty, bulk_in_64]

/-- The control IN transfer `ctrl_in_8` with every bit of the pipe other than
the direction bit cleared. -/
def ctrl_in_bare_pipe : urb := { ctrl_in_8 with pipe := 0x80 }

/-- A table with two entries, one under the bulk key and one under the control
IN key. -/
def two_entry_table : Table := [(bulk_in_key, 100), (ctrl_in_key, 7)]

/-! ## The key as the bytes the map compares (`perf.c`, lines 25-37) -/

/-- The bytes of a 16-bit member, least significant first. -/
def bytes_u16 (n : Nat) : List Nat := [n % 256, n / 256 % 256]

/-- The bytes of a 32-bit member, least significant first. -/
def bytes_u32 (n : Nat) : List Nat :=
  [n % 256, n / 256 % 256, n / 65536 % 256, n / 16777216 % 256]

/-- The object representation of a `struct key_t`, member after member in
declaration order: 4 + 4 + 2 + 2 + 1 + 1 bytes of fields and the bytes of
`pad`. The members are naturally aligned, so there is no byte between them. -/
def key_t.bytes (k : key_t) : List Nat :=
  bytes_u32 k.busnum ++ bytes_u32 k.devnum ++ bytes_u16 k.vendor ++ bytes_u16 k.product
    ++ [k.endpoint, k.type] ++ k.pad

/-! ## Lemmas about the map -/

theorem Table.lookup_store_same (t : Table) (k : key_t) (v : Nat) :
    (t.store k v).lookup k = some v := by
  induction t with
  | nil => simp [Table.store, Table.lookup]
  | cons hd rest ih =>
    obtain ⟨k1, v1⟩ := hd
    by_cases h : k1 = k
    · simp [Table.store, Table.lookup, h]
    · simp [Table.store, Table.lookup, h, ih]

theorem Table.lookup_store_other (t : Table) (k k2 : key_t) (v : Nat) (hne : k2 ≠ k) :
    (t.store k v).lookup k2 = t.lookup k2 := by
  induction t with
  | nil =>
    have h : ¬ k = k2 := fun e => hne e.symm
    simp [Table.store, Table.lookup, h]
  | cons hd rest ih =>
    obtain ⟨k1, v1⟩ := hd
    by_cases h : k1 = k
    · subst h
      have h2 : ¬ k1 = k2 := fun e => hne e.symm
      simp [Table.store, Table.lookup, h2]
    · by_cases h3 : k1 = k2
      · subst h3
        simp [Table.store, Table.lookup, h]
      · simp [Table.store, Table.lookup, h, h3, ih]

theorem Table.store_WF (t : Table) (k : key_t) (v : Nat) (ht : t.WF) (hv : v < 2 ^ 64) :
    (t.store k v).WF := by
  induction t with
  | nil =>
    intro e he
    simp only [Table.store, List.mem_singleton] at he
    rw [he]
    exact hv
  | cons hd rest ih =>
    obtain ⟨k1, v1⟩ := hd
    have hrest : Table.WF rest := fun e he => ht e (List.mem_cons_of_mem _ he)
    intro e he
    simp only [Table.store] at he
    split at he
    · rcases List.mem_cons.mp he with h | h
      · rw [h]
        exact hv
      · exact hrest e h
    · rcases List.mem_cons.mp he with h | h
      · rw [h]
        exact ht (k1, v1) (List.mem_cons_self _ _)
      · exact ih hrest e h

theorem Table.increment_WF (t : Table) (k : key_t) (amount : Nat) (ht : t.WF) :
    (t.increment k amount).WF := by
  unfold Table.increment
  split
  · exact Table.store_WF t k _ ht (Nat.mod_lt _ (by norm_num))
  · exact Table.store_WF t k _ ht (Nat.mod_lt _ (by norm_num))

theorem Table.lookup_increment_same (t : Table) (k : key_t) (amount : Nat) :
    (t.increment k amount).lookup k = some (((t.lookup k).getD 0 + amount) % 2 ^ 64) := by
  unfold Table.increment
  cases h : t.lookup k with
  | none => simp [Table.lookup_store_same]
  | some leaf => simp [Table.lookup_store_same]

theorem Table.lookup_increment_other (t : Table) (k k2 : key_t) (amount : Nat)
    (hne : k2 ≠ k) : (t.increment k amount).lookup k2 = t.lookup k2 := by
  unfold Table.increment
  cases h : t.lookup k with
  | none => simp [Table.lookup_store_other _ _ _ _ hne]
  | some leaf => simp [Table.lookup_store_other _ _ _ _ hne]

/-! ## Lemmas about the probe -/

theorem giveback_len_eq (u : urb) : giveback_len u = u.actual_length % 2 ^ 64 := rfl

theorem probe_table_of_pos (t : Table) (ctx hcd : Nat) (u : urb) (status : Int)
    (h : 0 < u.actual_length) :
    (kprobe__usb_hcd_giveback_urb t ctx hcd u status).1
      = t.increment (giveback_key u) (giveback_len u) := by
  simp [kprobe__usb_hcd_giveback_urb, h]

theorem probe_table_of_nonpos (t : Table) (ctx hcd : Nat) (u : urb) (status : Int)
    (h : u.actual_length ≤ 0) :
    (kprobe__usb_hcd_giveback_urb t ctx hcd u status).1 = t := by
  have h2 : ¬ 0 < u.actual_length := not_lt.mpr h
  simp [kprobe__usb_hcd_giveback_urb, h2]

theorem probe_WF (t : Table) (ctx hcd : Nat) (u : urb) (status : Int) (ht : t.WF) :
    (kprobe__usb_hcd_giveback_urb t ctx hcd u status).1.WF := by
  by_cases h : 0 < u.actual_length
  · rw [probe_table_of_pos t ctx hcd u status h]
    exact Table.increment_WF t _ _ ht
  · rw [probe_table_of_nonpos t ctx hcd u status (not_lt.mp h)]
    exact ht

theorem lookup_probe_of_pos (t : Table) (ctx hcd : Nat) (u : urb) (status : Int)
    (h : 0 < u.actual_length) :
    (kprobe__usb_hcd_giveback_urb t ctx hcd u status).1.lookup (giveback_key u)
      = some (((t.lookup (giveback_key u)).getD 0 + u.actual_length) % 2 ^ 64) := by
  rw [probe_table_of_pos t ctx hcd u status h, Table.lookup_increment_same,
    giveback_len_eq u]
  simp [Nat.add_mod]

theorem and_mask_mod (a m : Nat) (hm : m < 2 ^ 8) : (a &&& m) % 2 ^ 8 = a &&& m :=
  Nat.mod_eq_of_lt (lt_of_le_of_lt Nat.and_le_right hm)

theorem key_type_eq (u : urb) :
    (giveback_key u).type = u.ep.desc.bmAttributes &&& 3 := by
  have h := and_mask_mod u.ep.desc.bmAttributes 3 (by norm_num)
  unfold giveback_key
  simp only [USB_ENDPOINT_XFERTYPE_MASK, USB_DIR_IN]
  split <;> exact h

theorem key_endpoint_ep0 (u : urb) (htype : u.ep.desc.bmAttributes &&& 3 = 0)
    (hep : u.ep.desc.bEndpointAddress % 2 ^ 8 = 0) :
    (giveback_key u).endpoint = u.pipe &&& 0x80 := by
  have h := and_mask_mod u.ep.desc.bmAttributes 3 (by norm_num)
  have hp := and_mask_mod u.pipe 0x80 (by norm_num)
  unfold giveback_key
  simp only [USB_ENDPOINT_XFERTYPE_MASK, USB_DIR_IN]
  rw [if_pos]
  · simp only [hep, Nat.zero_or]
    exact hp
  · exact ⟨by rw [h]; exact htype, hep⟩

theorem key_endpoint_other (u : urb)
    (h : ¬ (u.ep.desc.bmAttributes &&& 3 = 0 ∧ u.ep.desc.bEndpointAddress % 2 ^ 8 = 0)) :
    (giveback_key u).endpoint = u.ep.desc.bEndpointAddress % 2 ^ 8 := by
  have hm := and_mask_mod u.ep.desc.bmAttributes 3 (by norm_num)
  unfold giveback_key
  simp only [USB_ENDPOINT_XFERTYPE_MASK, USB_DIR_IN]
  rw [if_neg]
  simpa only [hm] using h

theorem lookup_probe_other (t : Table) (ctx hcd : Nat) (u : urb) (status : Int)
    (k : key_t) (hne : k ≠ giveback_key u) :
    (kprobe__usb_hcd_giveback_urb t ctx hcd u status).1.lookup k = t.lookup k := by
  by_cases h : 0 < u.actual_length
  · rw [probe_table_of_pos t ctx hcd u status h, Table.lookup_increment_other _ _ _ _ hne]
  · rw [probe_table_of_nonpos t ctx hcd u status (not_lt.mp h)]

theorem key_busnum (u : urb) : (giveback_key u).busnum = u.dev.bus.busnum % 2 ^ 32 := by
  simp only [giveback_key]
  split <;> rfl

theorem key_devnum (u : urb) : (giveback_key u).devnum = u.dev.devnum % 2 ^ 32 := by
  simp only [giveback_key]
  split <;> rfl

theorem key_vendor (u : urb) :
    (giveback_key u).vendor = u.dev.descriptor.idVendor % 2 ^ 16 := by
  simp only [giveback_key]
  split <;> rfl

theorem key_product (u : urb) :
    (giveback_key u).product = u.dev.descriptor.idProduct % 2 ^ 16 := by
  simp only [giveback_key]
  split <;> rfl

theorem key_pad (u : urb) : (giveback_key u).pad = [0, 0] := by
  simp only [giveback_key]
  split <;> rfl

theorem key_type_lt (u : urb) : (giveback_key u).type < 4 := by
  rw [key_type_eq]
  exact Nat.lt_succ_of_le Nat.and_le_right

theorem key_attr_congr (u : urb) (a : Nat) (h : a &&& 3 = u.ep.desc.bmAttributes &&& 3) :
    giveback_key { u with ep := { desc := { u.ep.desc with bmAttributes := a } } }
      = giveback_key u := by
  simp only [giveback_key, USB_ENDPOINT_XFERTYPE_MASK, h]

theorem lookup_probe_of_miss (t : Table) (ctx hcd : Nat) (u : urb) (status : Int)
    (k : key_t) (h : ¬ (u.actual_length > 0 ∧ giveback_key u = k)) :
    (kprobe__usb_hcd_giveback_urb t ctx hcd u status).1.lookup k = t.lookup k := by
  by_cases hpos : 0 < u.actual_length
  · exact lookup_probe_other t ctx hcd u status k (fun e => h ⟨hpos, e.symm⟩)
  · rw [probe_table_of_nonpos t ctx hcd u status (not_lt.mp hpos)]

theorem and_dir_in_cases (x : Nat) : x &&& 0x80 = 0 ∨ x &&& 0x80 = 0x80 := by
  have h128 : (0x80 : Nat) = 2 ^ 7 := by norm_num
  rw [h128]
  cases hb : x.testBit 7 with
  | false =>
    left
    apply Nat.eq_of_testBit_eq
    intro i
    rw [Nat.testBit_and, Nat.testBit_two_pow, Nat.zero_testBit]
    by_cases hi : 7 = i
    · subst hi
      simp [hb]
    · simp [hi]
  | true =>
    right
    apply Nat.eq_of_testBit_eq
    intro i
    rw [Nat.testBit_and, Nat.testBit_two_pow]
    by_cases hi : 7 = i
    · subst hi
      simp [hb]
    · simp [hi]

theorem key_pipe_congr (u : urb) (p : Nat) (h : p &&& 0x80 = u.pipe &&& 0x80) :
    giveback_key { u with pipe := p } = giveback_key u := by
  simp only [giveback_key, USB_DIR_IN, h]

theorem key_ext (k1 k2 : key_t) (hbus : k1.busnum = k2.busnum) (hdev : k1.devnum = k2.devnum)
    (hven : k1.vendor = k2.vendor) (hprod : k1.product = k2.product)
    (hep : k1.endpoint = k2.endpoint) (htype : k1.type = k2.type) (hpad : k1.pad = k2.pad) :
    k1 = k2 := by
  cases k1
  cases k2
  simp only [key_t.mk.injEq]
  exact ⟨hbus, hdev, hven, hprod, hep, htype, hpad⟩

theorem key_bytes_length (u : urb) : (giveback_key u).bytes.length = 16 := by
  simp [key_t.bytes, bytes_u32, bytes_u16, key_pad]

/-! ## Lemmas about a run of the probe -/

theorem bytes_for_eq_zero_iff (k : key_t) (us : List urb) :
    bytes_for k us = 0 ↔ ∀ u ∈ us, ¬ (u.actual_length > 0 ∧ giveback_key u = k) := by
  induction us with
  | nil => simp [bytes_for]
  | cons u rest ih =>
    by_cases h : u.actual_length > 0 ∧ giveback_key u = k
    · have hpos : 0 < u.actual_length := by
        have := h.1
        omega
      simp only [bytes_for, if_pos h, List.mem_cons, forall_eq_or_imp]
      constructor
      · intro hz
        omega
      · intro hall
        exact absurd h hall.1
    · simp only [bytes_for, if_neg h, List.mem_cons, forall_eq_or_imp, Nat.zero_add, ih]
      exact ⟨fun hall => ⟨h, hall⟩, fun hall => hall.2⟩

theorem lookup_run_probe (t : Table) (us : List urb) (k : key_t) :
    (run_probe t us).lookup k
      = if bytes_for k us = 0 then t.lookup k
        else some (((t.lookup k).getD 0 + bytes_for k us) % 2 ^ 64) := by
  induction us generalizing t with
  | nil => simp [run_probe, bytes_for]
  | cons u rest ih =>
    rw [run_probe, ih]
    by_cases h : u.actual_length > 0 ∧ giveback_key u = k
    · have hpos : 0 < u.actual_length := by
        have := h.1
        omega
      have hk := lookup_probe_of_pos t 0 0 u 0 h.1
      rw [h.2] at hk
      have hne : ¬ (u.actual_length + bytes_for k rest = 0) := by omega
      simp only [bytes_for, if_pos h, if_neg hne, hk, Option.getD_some]
      split
      · rename_i hz
        rw [hz, Nat.add_zero]
      · congr 1
        omega
    · rw [lookup_probe_of_miss t 0 0 u 0 k h]
      simp only [bytes_for, if_neg h, Nat.zero_add]

theorem bytes_for_replicate (k : key_t) (u : urb) (n : Nat)
    (h : u.actual_length > 0 ∧ giveback_key u = k) :
    bytes_for k (List.replicate n u) = n * u.actual_length := by
  induction n with
  | zero => simp [bytes_for]
  | succ n ih =>
    rw [List.replicate_succ, bytes_for, if_pos h, ih]
    ring

/-! ## The counter of the derived key -/

/-- Counterexample to claim C1 as stated: with the counter of the derived key at
`2 ^ 64 - 1`, a transfer of 64 bytes leaves the counter at 63, not at the
previous value plus 64. -/
theorem giveback_adds_length_wraps :
    near_top_table.WF ∧ bulk_in_64.WF ∧
    0 < bulk_in_64.actual_length ∧
    near_top_table.lookup (giveback_key bulk_in_64) = some (2 ^ 64 - 1) ∧
    (kprobe__usb_hcd_giveback_urb near_top_table 0 0 bulk_in_64 0).1.lookup
      (giveback_key bulk_in_64) = some 63 ∧
    (kprobe__usb_hcd_giveback_urb near_top_table 0 0 bulk_in_64 0).1.lookup
      (giveback_key bulk_in_64)
      ≠ some ((near_top_table.lookup (giveback_key bulk_in_64)).getD 0
          + bulk_in_64.actual_length) := by
  decide

/-- Claim C1 (amended): for every table and every completed transfer whose
actual byte count is greater than zero, the probe leaves the counter of the
derived key equal to its previous value (0 when the key was absent, in which
case the entry is created) plus the actual byte count, reduced modulo `2 ^ 64`;
that is exactly the sum whenever the sum is below `2 ^ 64`. From the empty
table the transfer bus 1, device 5, vendor `0x1234`, product `0x5678`, endpoint
`0x81`, type Bulk, 64 bytes gives the counter 64 for the key
`(1, 5, 0x1234, 0x5678, 0x81, Bulk)` after one call and 128 after a second. -/
theorem giveback_adds_length (t : Table) (ctx hcd : Nat) (u : urb) (status : Int)
    (hpos : 0 < u.actual_length) :
    (kprobe__usb_hcd_giveback_urb t ctx hcd u status).1.lookup (giveback_key u)
      = some (((t.lookup (giveback_key u)).getD 0 + u.actual_length) % 2 ^ 64) ∧
    ((t.lookup (giveback_key u)).getD 0 + u.actual_length < 2 ^ 64 →
      (kprobe__usb_hcd_giveback_urb t ctx hcd u status).1.lookup (giveback_key u)
        = some ((t.lookup (giveback_key u)).getD 0 + u.actual_length)) ∧
    giveback_key bulk_in_64 = bulk_in_key ∧
    (kprobe__usb_hcd_giveback_urb Table.empty ctx hcd bulk_in_64 status).1.lookup
      bulk_in_key = some 64 ∧
    (kprobe__usb_hcd_giveback_urb
        (kprobe__usb_hcd_giveback_urb Table.empty ctx hcd bulk_in_64 status).1
        ctx hcd bulk_in_64 status).1.lookup bulk_in_key = some 128 := by
  have hmain := lookup_probe_of_pos t ctx hcd u status hpos
  refine ⟨hmain, ?_, by decide, ?_, ?_⟩
  · intro hlt
    rw [hmain, Nat.mod_eq_of_lt hlt]
  · rw [probe_table_of_pos _ _ _ _ _ (by decide)]
    decide
  · rw [probe_table_of_pos _ _ _ _ _ (by decide), probe_table_of_pos _ _ _ _ _ (by decide)]
    decide

/-- Witness of `giveback_adds_length`: the 64-byte bulk transfer on the table
whose counter is at the top of the 64-bit range. -/
theorem giveback_adds_length_witness :
    0 < bulk_in_64.actual_length ∧
    (kprobe__usb_hcd_giveback_urb near_top_table 0 0 bulk_in_64 0).1.lookup
      (giveback_key bulk_in_64)
      = some (((near_top_table.lookup (giveback_key bulk_in_64)).getD 0
          + bulk_in_64.actual_length) % 2 ^ 64) :=
  ⟨by decide, (giveback_adds_length near_top_table 0 0 bulk_in_64 0 (by decide)).1⟩

/-! ## Transfers that are skipped -/

/-- Claim C2: for every table and every completed transfer whose actual byte
count is zero or negative (at most 0), the probe leaves the table as it was: no
entry is created and no counter changes. The byte count is an unsigned member,
so such a count is zero. -/
theorem giveback_skips_nonpositive (t : Table) (ctx hcd : Nat) (u : urb) (status : Int)
    (hlen : u.actual_length ≤ 0) :
    u.actual_length = 0 ∧ (kprobe__usb_hcd_giveback_urb t ctx hcd u status).1 = t :=
  ⟨Nat.le_zero.mp hlen, probe_table_of_nonpos t ctx hcd u status hlen⟩

/-- Witness of `giveback_skips_nonpositive`: a bulk transfer that completes
with no byte transferred, on a table with one entry and on a table with two. -/
theorem giveback_skips_nonpositive_witness :
    bulk_in_empty.WF ∧ bulk_in_empty.actual_length ≤ 0 ∧
    (kprobe__usb_hcd_giveback_urb near_top_table 0 0 bulk_in_empty 0).1 = near_top_table ∧
    (kprobe__usb_hcd_giveback_urb two_entry_table 0 0 bulk_in_empty 0).1
      = two_entry_table :=
  ⟨by decide, by decide,
   (giveback_skips_nonpositive near_top_table 0 0 bulk_in_empty 0 (by decide)).2,
   (giveback_skips_nonpositive two_entry_table 0 0 bulk_in_empty 0 (by decide)).2⟩

/-! ## The endpoint field of the key -/

/-- Claim C3: for every completed transfer whose transfer type is Control
(attribute byte masked to 2 bits equals 0) and whose raw endpoint address has
endpoint number 0 (low four bits equal to 0), the endpoint field of the derived
key equals the direction bit of the pipe (`pipe & 0x80`): `0x80` for IN and
`0x00` for OUT. The transfers are those the kernel delivers: the address of
the default control endpoint is 0 (`urb.ep0_invariant`). -/
theorem control_ep0_endpoint (u : urb) (hinv : u.ep0_invariant)
    (htype : u.ep.desc.bmAttributes &&& USB_ENDPOINT_XFERTYPE_MASK
      = USB_ENDPOINT_XFER_CONTROL)
    (hnum : u.ep.desc.bEndpointAddress &&& 0x0F = 0) :
    (giveback_key u).endpoint = u.pipe &&& USB_DIR_IN ∧
    (u.pipe &&& USB_DIR_IN = USB_DIR_IN → (giveback_key u).endpoint = 0x80) ∧
    (u.pipe &&& USB_DIR_IN = 0 → (giveback_key u).endpoint = 0x00) := by
  have haddr : u.ep.desc.bEndpointAddress = 0 := hinv htype hnum
  have h : (giveback_key u).endpoint = u.pipe &&& USB_DIR_IN :=
    key_endpoint_ep0 u htype (by simp [haddr])
  refine ⟨h, ?_, ?_⟩
  · intro hin
    rw [h, hin]
    rfl
  · intro hout
    rw [h, hout]

/-- Witness of `control_ep0_endpoint`: the control IN and OUT transfers on
endpoint 0. -/
theorem control_ep0_endpoint_witness :
    ctrl_in_8.WF ∧ ctrl_in_8.ep0_invariant ∧
    ctrl_in_8.ep.desc.bmAttributes &&& USB_ENDPOINT_XFERTYPE_MASK
      = USB_ENDPOINT_XFER_CONTROL ∧
    ctrl_in_8.ep.desc.bEndpointAddress &&& 0x0F = 0 ∧
    (giveback_key ctrl_in_8).endpoint = ctrl_in_8.pipe &&& USB_DIR_IN ∧
    (giveback_key ctrl_in_8).endpoint = 0x80 ∧
    (giveback_key ctrl_out_8).endpoint = 0x00 :=
  ⟨by decide, by decide, by decide, by decide,
   (control_ep0_endpoint ctrl_in_8 (by decide) (by decide) (by decide)).1,
   (control_ep0_endpoint ctrl_in_8 (by decide) (by decide) (by decide)).2.1 (by decide),
   (control_ep0_endpoint ctrl_out_8 (by decide) (by decide) (by decide)).2.2 (by decide)⟩

/-- Claim C4: for every two completed transfers of type Control with raw
endpoint address 0 that agree on device, endpoint descriptor and byte count,
one with the direction bit `0x80` of the pipe set (IN) and one with it clear
(OUT), so in particular for two that differ only in that bit, the derived keys
are different: the IN key has endpoint field `0x80`, the OUT key has endpoint
field `0x00`, and all other key fields are equal. The two transfers therefore
update two distinct table entries: with a positive byte count, after both have
been handled each key's counter holds its own previous value plus the byte
count (modulo `2 ^ 64`). A control IN transfer of 8 bytes on endpoint 0 is
counted under endpoint `0x80`. -/
theorem control_ep0_direction_keys (uin uout : urb)
    (htype : uout.ep.desc.bmAttributes &&& USB_ENDPOINT_XFERTYPE_MASK
      = USB_ENDPOINT_XFER_CONTROL)
    (haddr : uout.ep.desc.bEndpointAddress = 0)
    (hdev : uin.dev = uout.dev) (hep : uin.ep = uout.ep)
    (hlen : uin.actual_length = uout.actual_length)
    (hin : uin.pipe &&& USB_DIR_IN = USB_DIR_IN)
    (hout : uout.pipe &&& USB_DIR_IN = 0) :
    giveback_key uin ≠ giveback_key uout ∧
    (giveback_key uin).endpoint = 0x80 ∧
    (giveback_key uout).endpoint = 0x00 ∧
    (giveback_key uin).busnum = (giveback_key uout).busnum ∧
    (giveback_key uin).devnum = (giveback_key uout).devnum ∧
    (giveback_key uin).vendor = (giveback_key uout).vendor ∧
    (giveback_key uin).product = (giveback_key uout).product ∧
    (giveback_key uin).type = (giveback_key uout).type ∧
    (giveback_key uin).pad = (giveback_key uout).pad ∧
    (∀ (t : Table) (ctx hcd : Nat) (status : Int), 0 < uout.actual_length →
      (kprobe__usb_hcd_giveback_urb (kprobe__usb_hcd_giveback_urb t ctx hcd uin status).1
          ctx hcd uout status).1.lookup (giveback_key uin)
        = some (((t.lookup (giveback_key uin)).getD 0 + uin.actual_length) % 2 ^ 64) ∧
      (kprobe__usb_hcd_giveback_urb (kprobe__usb_hcd_giveback_urb t ctx hcd uin status).1
          ctx hcd uout status).1.lookup (giveback_key uout)
        = some (((t.lookup (giveback_key uout)).getD 0 + uout.actual_length)
            % 2 ^ 64)) ∧
    (kprobe__usb_hcd_giveback_urb Table.empty 0 0 ctrl_in_8 0).1
      = [(ctrl_in_key, 8)] := by
  have hein : (giveback_key uin).endpoint = 0x80 := by
    rw [key_endpoint_ep0 uin (by rw [hep]; exact htype) (by simp [hep, haddr])]
    exact hin
  have heout : (giveback_key uout).endpoint = 0x00 := by
    rw [key_endpoint_ep0 uout htype (by simp [haddr])]
    exact hout
  have hne : giveback_key uin ≠ giveback_key uout := by
    intro heq
    rw [heq, heout] at hein
    exact absurd hein (by decide)
  refine ⟨hne, hein, heout, ?_, ?_, ?_, ?_, ?_, ?_, ?_, by decide⟩
  · rw [key_busnum, key_busnum, hdev]
  · rw [key_devnum, key_devnum, hdev]
  · rw [key_vendor, key_vendor, hdev]
  · rw [key_product, key_product, hdev]
  · rw [key_type_eq, key_type_eq, hep]
  · rw [key_pad, key_pad]
  · intro t ctx hcd status hpos
    have hpin : 0 < uin.actual_length := by rw [hlen]; exact hpos
    constructor
    · rw [lookup_probe_other _ ctx hcd uout status _ hne,
        lookup_probe_of_pos t ctx hcd uin status hpin]
    · rw [lookup_probe_of_pos _ ctx hcd uout status hpos,
        lookup_probe_other t ctx hcd uin status _ (Ne.symm hne)]

/-- Witness of `control_ep0_direction_keys`: the control IN and OUT transfers
of 8 bytes on endpoint 0 of one device. -/
theorem control_ep0_direction_keys_witness :
    giveback_key ctrl_in_8 ≠ giveback_key ctrl_out_8 ∧
    (giveback_key ctrl_in_8).endpoint = 0x80 ∧
    (giveback_key ctrl_out_8).endpoint = 0x00 :=
  ⟨(control_ep0_direction_keys ctrl_in_8 ctrl_out_8 (by decide) (by decide) (by decide)
      (by decide) (by decide) (by decide) (by decide)).1,
   (control_ep0_direction_keys ctrl_in_8 ctrl_out_8 (by decide) (by decide) (by decide)
      (by decide) (by decide) (by decide) (by decide)).2.1,
   (control_ep0_direction_keys ctrl_in_8 ctrl_out_8 (by decide) (by decide) (by decide)
      (by decide) (by decide) (by decide) (by decide)).2.2.1⟩

/-- Claim C5: for every completed transfer whose transfer type (attribute byte
masked to 2 bits) is not Control, the endpoint field of the derived key equals
the raw `bEndpointAddress` of the endpoint descriptor unmodified, whatever the
value of the pipe. -/
theorem noncontrol_endpoint_raw (u : urb) (hwf : u.WF)
    (htype : u.ep.desc.bmAttributes &&& USB_ENDPOINT_XFERTYPE_MASK
      ≠ USB_ENDPOINT_XFER_CONTROL) :
    (giveback_key u).endpoint = u.ep.desc.bEndpointAddress ∧
    ∀ p : Nat, (giveback_key { u with pipe := p }).endpoint = u.ep.desc.bEndpointAddress := by
  have haddr : u.ep.desc.bEndpointAddress % 2 ^ 8 = u.ep.desc.bEndpointAddress :=
    Nat.mod_eq_of_lt hwf.2.2.2.2.1
  constructor
  · rw [key_endpoint_other u (fun h => htype h.1), haddr]
  · intro p
    exact (key_endpoint_other { u with pipe := p } (fun h => htype h.1)).trans haddr

/-- Witness of `noncontrol_endpoint_raw`: the bulk IN transfer on endpoint
`0x81`. -/
theorem noncontrol_endpoint_raw_witness :
    bulk_in_64.WF ∧
    bulk_in_64.ep.desc.bmAttributes &&& USB_ENDPOINT_XFERTYPE_MASK
      ≠ USB_ENDPOINT_XFER_CONTROL ∧
    (giveback_key bulk_in_64).endpoint = 0x81 :=
  ⟨by decide, by decide, (noncontrol_endpoint_raw bulk_in_64 (by decide) (by decide)).1⟩

/-! ## The identity fields of the key -/

/-- Claim C6: for every completed transfer, the bus number, device number,
vendor identifier and product identifier of the derived key equal the
corresponding fields of the owning device and its descriptor unchanged, and the
transfer-type field equals the attribute byte masked to its low 2 bits
(`bmAttributes & 0x03`), so it is one of the four values 0..3 (Control,
Isochronous, Bulk, Interrupt), and a transfer that differs only in the upper
six bits of the attribute byte derives the same key. -/
theorem key_identity_fields (u : urb) (hwf : u.WF) :
    (giveback_key u).busnum = u.dev.bus.busnum ∧
    (giveback_key u).devnum = u.dev.devnum ∧
    (giveback_key u).vendor = u.dev.descriptor.idVendor ∧
    (giveback_key u).product = u.dev.descriptor.idProduct ∧
    (giveback_key u).type = u.ep.desc.bmAttributes &&& 0x03 ∧
    ((giveback_key u).type = USB_ENDPOINT_XFER_CONTROL ∨
      (giveback_key u).type = USB_ENDPOINT_XFER_ISOC ∨
      (giveback_key u).type = USB_ENDPOINT_XFER_BULK ∨
      (giveback_key u).type = USB_ENDPOINT_XFER_INT) ∧
    ∀ a : Nat, a &&& 0x03 = u.ep.desc.bmAttributes &&& 0x03 →
      giveback_key { u with ep := { desc := { u.ep.desc with bmAttributes := a } } }
        = giveback_key u := by
  obtain ⟨hbus, hdevnum, hvendor, hproduct, -⟩ := hwf
  refine ⟨?_, ?_, ?_, ?_, key_type_eq u, ?_, fun a ha => key_attr_congr u a ha⟩
  · rw [key_busnum, Nat.mod_eq_of_lt hbus]
  · rw [key_devnum, Nat.mod_eq_of_lt hdevnum]
  · rw [key_vendor, Nat.mod_eq_of_lt hvendor]
  · rw [key_product, Nat.mod_eq_of_lt hproduct]
  · have hlt := key_type_lt u
    simp only [USB_ENDPOINT_XFER_CONTROL, USB_ENDPOINT_XFER_ISOC, USB_ENDPOINT_XFER_BULK,
      USB_ENDPOINT_XFER_INT]
    omega

/-- Witness of `key_identity_fields`: the interrupt transfer whose attribute
byte is `0x13`, and the same transfer with attribute byte `0x03`. -/
theorem key_identity_fields_witness :
    intr_in_8.WF ∧
    (giveback_key intr_in_8).busnum = 2 ∧
    (giveback_key intr_in_8).type = USB_ENDPOINT_XFER_INT ∧
    giveback_key { intr_in_8 with
        ep := { desc := { intr_in_8.ep.desc with bmAttributes := 0x03 } } }
      = giveback_key intr_in_8 :=
  ⟨by decide, (key_identity_fields intr_in_8 (by decide)).1,
   (key_identity_fields intr_in_8 (by decide)).2.2.2.2.1,
   (key_identity_fields intr_in_8 (by decide)).2.2.2.2.2.2 0x03 (by decide)⟩

/-! ## A run of the probe from the empty table -/

/-- Counterexample to claim C7 as stated: after `2 ^ 34` transfers of `2 ^ 30`
bytes each under one key, starting from the empty table, the counter of that
key reads 0 while the exact sum of the byte counts is `2 ^ 64`. -/
theorem run_probe_sum_wraps :
    (∀ u ∈ long_run, u.WF) ∧
    (∀ u ∈ long_run, 0 < u.actual_length ∧ giveback_key u = bulk_in_key) ∧
    bytes_for bulk_in_key long_run = 2 ^ 64 ∧
    (run_probe Table.empty long_run).lookup bulk_in_key = some 0 ∧
    (run_probe Table.empty long_run).lookup bulk_in_key
      ≠ some (bytes_for bulk_in_key long_run) := by
  have hbig : bulk_in_big.actual_length > 0 ∧ giveback_key bulk_in_big = bulk_in_key := by
    decide
  have hsum : bytes_for bulk_in_key long_run = 2 ^ 64 := by
    rw [long_run, bytes_for_replicate bulk_in_key bulk_in_big _ hbig]
    decide
  have hread : (run_probe Table.empty long_run).lookup bulk_in_key = some 0 := by
    rw [lookup_run_probe, hsum]
    decide
  refine ⟨?_, ?_, hsum, hread, ?_⟩
  · intro u hu
    rw [List.eq_of_mem_replicate hu]
    decide
  · intro u hu
    rw [List.eq_of_mem_replicate hu]
    exact hbig
  · rw [hread, hsum]
    decide

/-- Claim C7 (amended): for every finite sequence of completed transfers
handled one after another by the probe starting from the empty table, reading
the table afterwards gives, for each key derived by a positive-length transfer
of the sequence, the sum of the byte counts of the positive-length transfers of
the sequence that derive that key, reduced modulo `2 ^ 64`; that is the exact
sum whenever the sum is below `2 ^ 64`. A key derived by no positive-length
transfer of the sequence has no entry. -/
theorem run_probe_counts (us : List urb) (k : key_t) :
    ((∃ u ∈ us, u.actual_length > 0 ∧ giveback_key u = k) →
      (run_probe Table.empty us).lookup k = some (bytes_for k us % 2 ^ 64)) ∧
    ((∃ u ∈ us, u.actual_length > 0 ∧ giveback_key u = k) → bytes_for k us < 2 ^ 64 →
      (run_probe Table.empty us).lookup k = some (bytes_for k us)) ∧
    ((∀ u ∈ us, ¬ (u.actual_length > 0 ∧ giveback_key u = k)) →
      (run_probe Table.empty us).lookup k = none) := by
  have hmod : (∃ u ∈ us, u.actual_length > 0 ∧ giveback_key u = k) →
      (run_probe Table.empty us).lookup k = some (bytes_for k us % 2 ^ 64) := by
    rintro ⟨u, hu, hhit⟩
    have hne : ¬ bytes_for k us = 0 := fun hz =>
      (bytes_for_eq_zero_iff k us).mp hz u hu hhit
    rw [lookup_run_probe, if_neg hne]
    simp [Table.empty, Table.lookup]
  refine ⟨hmod, ?_, ?_⟩
  · intro hex hlt
    rw [hmod hex, Nat.mod_eq_of_lt hlt]
  · intro hall
    rw [lookup_run_probe, if_pos ((bytes_for_eq_zero_iff k us).mpr hall)]
    rfl

/-- Witness of `run_probe_counts`: the short run counts 128 bytes under the
bulk key. -/
theorem run_probe_counts_witness :
    bulk_in_64 ∈ short_run ∧
    (bulk_in_64.actual_length > 0 ∧ giveback_key bulk_in_64 = bulk_in_key) ∧
    bytes_for bulk_in_key short_run = 128 ∧
    (run_probe Table.empty short_run).lookup bulk_in_key
      = some (bytes_for bulk_in_key short_run) ∧
    (run_probe Table.empty short_run).lookup (giveback_key intr_in_8) = none :=
  ⟨by decide, by decide, by decide,
   (run_probe_counts short_run bulk_in_key).2.1
     ⟨bulk_in_64, by decide, by decide⟩ (by decide),
   (run_probe_counts short_run (giveback_key intr_in_8)).2.2 (by decide)⟩

/-! ## Entries are kept -/

/-- Counterexample to claim C8 as stated: the key `bulk_in_key` is present
with the counter `2 ^ 64 - 1`; after a transfer of 64 bytes its counter is 63,
which is below the previous value. -/
theorem giveback_counter_decreases :
    near_top_table.WF ∧ bulk_in_64.WF ∧
    near_top_table.lookup bulk_in_key = some (2 ^ 64 - 1) ∧
    (kprobe__usb_hcd_giveback_urb near_top_table 0 0 bulk_in_64 0).1.lookup bulk_in_key
      = some 63 ∧
    ¬ ∃ v : Nat,
      (kprobe__usb_hcd_giveback_urb near_top_table 0 0 bulk_in_64 0).1.lookup bulk_in_key
        = some v ∧ 2 ^ 64 - 1 ≤ v := by
  have hafter :
      (kprobe__usb_hcd_giveback_urb near_top_table 0 0 bulk_in_64 0).1.lookup bulk_in_key
        = some 63 := by decide
  refine ⟨by decide, by decide, by decide, hafter, ?_⟩
  rintro ⟨v, hv, hle⟩
  rw [hafter] at hv
  have h63 : v = 63 := (Option.some.inj hv).symm
  rw [h63] at hle
  exact absurd hle (by decide)

/-- Claim C8 (amended): for every table and every completed transfer, the probe
never deletes an entry: every key present before the call is present after it.
Its 64-bit counter is unchanged when the key is not the derived key of the
transfer or the byte count is not positive, is the previous value plus the byte
count modulo `2 ^ 64` otherwise, and is therefore greater than or equal to its
previous value whenever the previous value plus the byte count is below
`2 ^ 64`. -/
theorem giveback_keeps_entries (t : Table) (ctx hcd : Nat) (u : urb) (status : Int)
    (k : key_t) (v : Nat) (hk : t.lookup k = some v) :
    ∃ v2 : Nat,
      (kprobe__usb_hcd_giveback_urb t ctx hcd u status).1.lookup k = some v2 ∧
      (¬ (u.actual_length > 0 ∧ giveback_key u = k) → v2 = v) ∧
      (u.actual_length > 0 ∧ giveback_key u = k →
        v2 = (v + u.actual_length) % 2 ^ 64) ∧
      (v + u.actual_length < 2 ^ 64 → v ≤ v2) := by
  by_cases h : u.actual_length > 0 ∧ giveback_key u = k
  · have hafter := lookup_probe_of_pos t ctx hcd u status h.1
    rw [h.2, hk, Option.getD_some] at hafter
    refine ⟨(v + u.actual_length) % 2 ^ 64, hafter, fun hn => absurd h hn,
      fun _ => rfl, ?_⟩
    intro hlt
    rw [Nat.mod_eq_of_lt hlt]
    exact Nat.le_add_right v _
  · refine ⟨v, ?_, fun _ => rfl, fun hy => absurd hy h, fun _ => le_refl v⟩
    rw [lookup_probe_of_miss t ctx hcd u status k h, hk]

/-- Witness of `giveback_keeps_entries`: the entry at the top of the 64-bit
range is still present after a transfer of 64 bytes under its key. -/
theorem giveback_keeps_entries_witness :
    near_top_table.lookup bulk_in_key = some (2 ^ 64 - 1) ∧
    ((kprobe__usb_hcd_giveback_urb near_top_table 0 0 bulk_in_64 0).1.lookup
      bulk_in_key).isSome = true ∧
    ((kprobe__usb_hcd_giveback_urb near_top_table 0 0 ctrl_in_8 0).1.lookup
      bulk_in_key) = some (2 ^ 64 - 1) :=
  ⟨by decide,
   match giveback_keeps_entries near_top_table 0 0 bulk_in_64 0 bulk_in_key (2 ^ 64 - 1)
     (by decide) with
   | ⟨_, hafter, _⟩ => by rw [hafter]; rfl,
   match giveback_keeps_entries near_top_table 0 0 ctrl_in_8 0 bulk_in_key (2 ^ 64 - 1)
     (by decide) with
   | ⟨_, hafter, hsame, _⟩ => by rw [hafter, hsame (by decide)]⟩

/-! ## The return value -/

/-- Claim C10: the classification stage never fails: for every table and every
completed transfer, whether the transfer is counted or skipped, the probe
`kprobe__usb_hcd_giveback_urb` returns 0. -/
theorem giveback_returns_zero (t : Table) (ctx hcd : Nat) (u : urb) (status : Int) :
    (kprobe__usb_hcd_giveback_urb t ctx hcd u status).2 = 0 := by
  unfold kprobe__usb_hcd_giveback_urb
  rfl

/-! ## What the probe leaves alone -/

/-- Claim C11: for every table and every completed transfer, the probe changes
at most the entry of the derived key of the transfer: every key different from
the derived key has the same presence and the same counter value after the
call as before it. -/
theorem giveback_frame (t : Table) (ctx hcd : Nat) (u : urb) (status : Int) (k : key_t)
    (hne : k ≠ giveback_key u) :
    (kprobe__usb_hcd_giveback_urb t ctx hcd u status).1.lookup k = t.lookup k ∧
    ((kprobe__usb_hcd_giveback_urb t ctx hcd u status).1.lookup k).isSome
      = (t.lookup k).isSome := by
  have h := lookup_probe_other t ctx hcd u status k hne
  exact ⟨h, by rw [h]⟩

/-- Witness of `giveback_frame`: a bulk transfer of 64 bytes leaves the entry
of the control key and the absence of the interrupt key as they were. -/
theorem giveback_frame_witness :
    ctrl_in_key ≠ giveback_key bulk_in_64 ∧
    (kprobe__usb_hcd_giveback_urb two_entry_table 0 0 bulk_in_64 0).1.lookup ctrl_in_key
      = some 7 ∧
    (kprobe__usb_hcd_giveback_urb two_entry_table 0 0 bulk_in_64 0).1.lookup
      (giveback_key intr_in_8) = none :=
  ⟨by decide,
   (giveback_frame two_entry_table 0 0 bulk_in_64 0 ctrl_in_key (by decide)).1.trans
     (by decide),
   (giveback_frame two_entry_table 0 0 bulk_in_64 0 (giveback_key intr_in_8)
     (by decide)).1.trans (by decide)⟩

/-- Claim C12: the effect of the probe does not depend on the completion status
or on the host-controller argument: for every table and every two invocations
that receive the same transfer but different values of `status` and `hcd`, the
resulting table and the return value are identical; a transfer of 64 bytes that
completed with the error status -71 is counted exactly like a successful one. -/
theorem giveback_ignores_status_hcd (t : Table) (ctx : Nat) (u : urb) (hcd1 hcd2 : Nat)
    (status1 status2 : Int) :
    (kprobe__usb_hcd_giveback_urb t ctx hcd1 u status1).1
      = (kprobe__usb_hcd_giveback_urb t ctx hcd2 u status2).1 ∧
    (kprobe__usb_hcd_giveback_urb t ctx hcd1 u status1).2
      = (kprobe__usb_hcd_giveback_urb t ctx hcd2 u status2).2 ∧
    (kprobe__usb_hcd_giveback_urb two_entry_table ctx hcd1 bulk_in_64 (-71)).1
      = (kprobe__usb_hcd_giveback_urb two_entry_table ctx hcd2 bulk_in_64 0).1 ∧
    (kprobe__usb_hcd_giveback_urb two_entry_table ctx hcd1 bulk_in_64 (-71)).1.lookup
      bulk_in_key = some 164 := by
  refine ⟨rfl, rfl, rfl, ?_⟩
  rw [probe_table_of_pos _ _ _ _ _ (by decide)]
  decide

/-! ## The pipe and the padding -/

/-- Claim C13: of the pipe only the direction bit `0x80` can influence the
derived key: a transfer that differs from another only in bits of the pipe
other than `0x80` derives the same key; and for a transfer that takes the
endpoint-0 control branch (masked type 0 and raw endpoint address 0) the
endpoint field of the key is exactly `0x00` or `0x80`. -/
theorem key_pipe_direction_only (u : urb) (p : Nat) :
    (p &&& USB_DIR_IN = u.pipe &&& USB_DIR_IN →
      giveback_key { u with pipe := p } = giveback_key u) ∧
    (u.ep.desc.bmAttributes &&& USB_ENDPOINT_XFERTYPE_MASK = USB_ENDPOINT_XFER_CONTROL →
      u.ep.desc.bEndpointAddress = 0 →
      (giveback_key u).endpoint = 0x00 ∨ (giveback_key u).endpoint = 0x80) := by
  constructor
  · intro hp
    exact key_pipe_congr u p hp
  · intro htype haddr
    rw [key_endpoint_ep0 u htype (by simp [haddr])]
    exact and_dir_in_cases u.pipe

/-- Witness of `key_pipe_direction_only`: the control IN transfer on endpoint 0
and the same transfer with the other bits of the pipe cleared. -/
theorem key_pipe_direction_only_witness :
    (0x80 : Nat) &&& USB_DIR_IN = ctrl_in_8.pipe &&& USB_DIR_IN ∧
    giveback_key { ctrl_in_8 with pipe := 0x80 } = giveback_key ctrl_in_8 ∧
    ((giveback_key ctrl_in_8).endpoint = 0x00 ∨ (giveback_key ctrl_in_8).endpoint = 0x80) :=
  ⟨by decide, (key_pipe_direction_only ctrl_in_8 0x80).1 (by decide),
   (key_pipe_direction_only ctrl_in_8 0x80).2 (by decide) (by decide)⟩

/-- Claim C14: for every completed transfer, the two padding bytes of the
derived `key_t` are both 0 and the key is 16 bytes long, so two transfers whose
derived keys agree on the six semantic fields (busnum, devnum, vendor, product,
endpoint, type) derive keys that are equal as whole 16-byte structures and
therefore address the same table entry. -/
theorem key_padding_zero (u1 u2 : urb) :
    (giveback_key u1).pad = [0, 0] ∧
    (giveback_key u1).bytes.length = 16 ∧
    ((giveback_key u1).busnum = (giveback_key u2).busnum ∧
      (giveback_key u1).devnum = (giveback_key u2).devnum ∧
      (giveback_key u1).vendor = (giveback_key u2).vendor ∧
      (giveback_key u1).product = (giveback_key u2).product ∧
      (giveback_key u1).endpoint = (giveback_key u2).endpoint ∧
      (giveback_key u1).type = (giveback_key u2).type →
      giveback_key u1 = giveback_key u2 ∧
      (giveback_key u1).bytes = (giveback_key u2).bytes ∧
      ∀ t : Table, t.lookup (giveback_key u1) = t.lookup (giveback_key u2)) := by
  refine ⟨key_pad u1, key_bytes_length u1, ?_⟩
  rintro ⟨hbus, hdev, hven, hprod, hep, htype⟩
  have hkey : giveback_key u1 = giveback_key u2 :=
    key_ext _ _ hbus hdev hven hprod hep htype ((key_pad u1).trans (key_pad u2).symm)
  exact ⟨hkey, by rw [hkey], fun t => by rw [hkey]⟩

/-- Witness of `key_padding_zero`: two control IN transfers with different
pipes and the same six semantic fields address the same entry. -/
theorem key_padding_zero_witness :
    ctrl_in_8 ≠ ctrl_in_bare_pipe ∧
    (giveback_key ctrl_in_8).bytes = (giveback_key ctrl_in_bare_pipe).bytes ∧
    two_entry_table.lookup (giveback_key ctrl_in_8) = some 7 ∧
    two_entry_table.lookup (giveback_key ctrl_in_bare_pipe) = some 7 :=
  ⟨by decide,
   ((key_padding_zero ctrl_in_8 ctrl_in_bare_pipe).2.2 (by decide)).2.1,
   by decide,
   (((key_padding_zero ctrl_in_8 ctrl_in_bare_pipe).2.2 (by decide)).2.2
     two_entry_table).symm.trans (by decide)⟩

end UsbTop
